import Mathlib

/-!
Verification of the file integrity engine of `unrar`'s `filefn` module
(`CalcFileSum`, declared in `src/unrar-src/unrar/filefn.hpp`):

  void CalcFileSum(File *SrcFile, uint *CRC32, byte *Blake2,
                   uint Threads, int64 Size = INT64NDF, uint Flags = 0);

The repository under verification ships only the header; the body of
`CalcFileSum` (filefn.cpp) is absent, so the engine is modelled from the
design specification (spec.md §2–§7): a `ChunkReader` delivers fixed-size
buffers, a `CrcAccumulator` and a `HashAccumulator` consume every buffer
exactly once in stream order, and a `ChecksumEngine` orchestrates the run,
optionally splitting the stream into per-thread leaves.

Bytes are modelled as natural numbers (values < 256); 32-bit and 64-bit
machine words are naturals reduced mod 2^32 / 2^64 where overflow matters.
-/

/-- Modelled from the spec (§4.2; filefn.cpp absent from src/):
the reflected CRC-32 polynomial used by the table-driven update. -/
def crcPoly : Nat := 0xEDB88320

/-- Modelled from the spec (§4.2): one shift-and-conditional-xor step of the
reflected CRC-32 bit loop, equivalent to one table-lookup bit. -/
def crcStep (c : Nat) : Nat :=
  if c % 2 = 1 then (c / 2) ^^^ crcPoly else c / 2

/-- Modelled from the spec (§4.2): absorb one byte into the running CRC
(xor into the low byte, then eight bit steps). -/
def crcUpdateByte (c b : Nat) : Nat :=
  crcStep^[8] (c ^^^ b % 256)

/-- Modelled from the spec (§4.2): `CrcAccumulator.update` — feed a buffer
into the running CRC value, byte by byte, in stream order. -/
def crcUpdate (c : Nat) (buf : List Nat) : Nat :=
  buf.foldl crcUpdateByte c

/-- Modelled from the spec (§4.2, glossary): the single-pass CRC-32 of a whole
byte sequence — initial value `0xFFFFFFFF`, final xor `0xFFFFFFFF`. -/
def crc32 (data : List Nat) : Nat :=
  crcUpdate 0xFFFFFFFF data ^^^ 0xFFFFFFFF

/-- Modelled from the spec (§4.3; the BLAKE2 implementation is not under
src/): initial state of the stand-in cryptographic hash context. -/
def hashInit : Nat := 0xcbf29ce484222325

/-- Modelled from the spec (§4.3): absorb one byte into the stand-in hash
context (a deterministic 64-bit xor-multiply fold standing in for the
BLAKE2-family compression). -/
def hashUpdateByte (h b : Nat) : Nat :=
  ((h ^^^ b % 256) * 0x100000001b3) % 2 ^ 64

/-- Modelled from the spec (§4.3): `HashAccumulator.update` — feed a buffer
into the running hash context in stream order. -/
def hashUpdate (h : Nat) (buf : List Nat) : Nat :=
  buf.foldl hashUpdateByte h

/-- Modelled from the spec (§4.3): sequential-profile digest of a whole byte
sequence, hashing the data in one pass in stream order. -/
def hashSeq (data : List Nat) : Nat :=
  hashUpdate hashInit data

/-- Modelled from the spec (§4.1): the fixed buffer capacity of the
`ChunkReader` (a power-of-two size in the tens of kilobytes). -/
def bufSize : Nat := 0x10000

/-- Modelled from the spec (§4.1): the reader loop with an explicit bound on
the number of remaining reads (each read consumes at least one byte, so
the stream length bounds it): peel off one maximal buffer per step. -/
def chunksGo (B : Nat) : Nat → List Nat → List (List Nat)
  | _, [] => []
  | 0, x :: xs => [x :: xs]
  | fuel + 1, x :: xs => (x :: xs.take (B - 1)) :: chunksGo B fuel (xs.drop (B - 1))

/-- Modelled from the spec (§4.1): split a stream into the successive maximal
buffers the `ChunkReader` delivers: every buffer has `B` bytes except a
shorter final one; `B = 0` degenerates to a single buffer. -/
def chunksOf (B : Nat) (l : List Nat) : List (List Nat) :=
  chunksGo B l.length l

/-- Modelled from the spec (§4.3): partition a stream into `N` contiguous,
non-overlapping regions of near-equal size, the per-thread hash-tree
leaves. -/
def regionSplit : Nat → List Nat → List (List Nat)
  | 0, _ => []
  | 1, l => [l]
  | n + 2, l =>
      let k := l.length / (n + 2)
      l.take k :: regionSplit (n + 1) (l.drop k)

theorem chunksGo_join (B fuel : Nat) :
    ∀ l : List Nat, (chunksGo B fuel l).flatten = l := by
  induction fuel with
  | zero => intro l; cases l <;> simp [chunksGo]
  | succ n ih =>
      intro l
      cases l with
      | nil => simp [chunksGo]
      | cons x xs =>
          rw [chunksGo]
          simp only [List.flatten_cons, ih]
          simp [List.cons_append, List.take_append_drop]

theorem chunksOf_join (B : Nat) (l : List Nat) : (chunksOf B l).flatten = l :=
  chunksGo_join B l.length l

theorem regionSplit_join (N : Nat) (l : List Nat) (hN : 1 ≤ N) :
    (regionSplit N l).flatten = l := by
  induction N generalizing l with
  | zero => omega
  | succ n ih =>
      match n with
      | 0 => simp [regionSplit]
      | m + 1 =>
          rw [regionSplit]
          simp only [List.flatten_cons, ih (l.drop (l.length / (m + 2))) (by omega)]
          simp [List.take_append_drop]

theorem foldl_buffers_eq_foldl_flatten (g : Nat → Nat → Nat) (c : Nat)
    (bufs : List (List Nat)) :
    bufs.foldl (fun s buf => buf.foldl g s) c = bufs.flatten.foldl g c := by
  induction bufs generalizing c with
  | nil => rfl
  | cons b bs ih => simp [List.foldl_append, ih]

/-- Modelled from the spec (§4.2, §4.5): the CRC-32 a run accumulates when
the stream is delivered buffer by buffer to a single `CrcAccumulator` —
sequential mode feeds the reader's chunks directly. -/
def crcSeqRun (data : List Nat) : Nat :=
  (chunksOf bufSize data).foldl crcUpdate 0xFFFFFFFF ^^^ 0xFFFFFFFF

/-- Modelled from the spec (§4.2 strategy (a), §9): multithreaded CRC — the
per-thread regions' updates are strictly serialized into the single
accumulator in original stream order (CRC correctness over CRC
parallelism), each region delivered in reader chunks. -/
def crcParRun (threads : Nat) (data : List Nat) : Nat :=
  ((regionSplit threads data).map (chunksOf bufSize)).flatten.foldl
    crcUpdate 0xFFFFFFFF ^^^ 0xFFFFFFFF

/-- Modelled from the spec (§4.3): hash one tree leaf (one thread's region),
delivered in reader chunks, into a leaf digest. -/
def hashLeafRun (region : List Nat) : Nat :=
  (chunksOf bufSize region).foldl hashUpdate hashInit

/-- Modelled from the spec (§4.3): serialize a 64-bit leaf digest into its
eight little-endian bytes for the root combining pass. -/
def digestBytes (d : Nat) : List Nat :=
  (List.range 8).map fun i => d / 2 ^ (8 * i) % 256

/-- Modelled from the spec (§4.3): the root combining pass of the `N`-leaf
tree profile — a final hash over the leaf count followed by the leaf
digests in region order, authenticating both digests and count/order. -/
def rootCombine (threads : Nat) (leafDigests : List Nat) : Nat :=
  hashUpdate (hashUpdateByte hashInit threads) (leafDigests.map digestBytes).flatten

/-- Modelled from the spec (§4.3): the parallel-profile (`N`-leaf tree)
digest: partition into `N` regions, hash each independently, combine the
leaf digests in region order. -/
def hashTreeRun (threads : Nat) (data : List Nat) : Nat :=
  rootCombine threads ((regionSplit threads data).map hashLeafRun)

/-- Modelled from the spec (§6): the outcome of one checksum run. -/
inductive Outcome where
  | Success : Outcome
  | Failed : Outcome
  | Cancelled : Outcome
deriving DecidableEq, Repr

/-- Modelled from the spec (§6): the structured result of a run —
`crc32: optional uint32, digest: optional byte sequence,
bytesProcessed: uint64, outcome`. -/
structure SumResult where
  crc32 : Option Nat
  digest : Option Nat
  bytesProcessed : Nat
  outcome : Outcome
deriving DecidableEq, Repr

/-- Modelled from the spec (§4.1, §4.5): one checksum run's input stream —
the underlying bytes, whether `open` succeeds, and an optional position at
which `readNext` raises an `IoError` mid-stream. -/
structure InFile where
  data : List Nat
  openOk : Bool
  errAt : Option Nat
deriving DecidableEq, Repr

/-- Modelled from the spec (§6): how many bytes the run consumes — the whole
stream, or exactly the caller's byte budget when one is given and smaller
(`sizeLimit: stop after N bytes even if stream continues`). `none` stands
for the header default `Size = INT64NDF` (no budget). -/
def toProcess (f : InFile) (size : Option Nat) : Nat :=
  match size with
  | none => f.data.length
  | some s => min s f.data.length

/-- Modelled from the spec (§4.5 `Streaming → Finalizing → Done`): the
successful path of a run — both accumulators run over the processed prefix
`bytes` and the requested results are stored through the non-null
out-parameters. -/
def calcFileSumOk (bytes : List Nat) (wantCrc wantHash : Bool)
    (threads n : Nat) : SumResult :=
  { crc32 :=
      if wantCrc then
        some (if threads ≤ 1 then crcSeqRun bytes else crcParRun threads bytes)
      else none,
    digest :=
      if wantHash then
        some (if threads ≤ 1 then hashLeafRun bytes else hashTreeRun threads bytes)
      else none,
    bytesProcessed := n,
    outcome := .Success }

/-- Modelled from the spec (§4.5, §6, §7): `CalcFileSum` — the
`ChecksumEngine` run. `wantCrc` / `wantHash` model the nullability of the
`uint *CRC32` / `byte *Blake2` out-parameters; `threads` is the configured
thread count; `size = none` models `Size = INT64NDF`; `flags` drives only
the progress display (`progressTrace`). An open failure or a mid-stream
`IoError` yields `Failed` with no CRC and no digest (partial accumulator
state discarded); otherwise the requested checksums of the processed
prefix are returned. -/
def calcFileSum (f : InFile) (wantCrc wantHash : Bool) (threads : Nat)
    (size : Option Nat) (flags : Nat) : SumResult :=
  if !f.openOk then
    { crc32 := none, digest := none, bytesProcessed := 0, outcome := .Failed }
  else
    let n := toProcess f size
    match f.errAt with
    | some e =>
        if e < n then
          { crc32 := none, digest := none, bytesProcessed := e,
            outcome := .Failed }
        else
          calcFileSumOk (f.data.take n) wantCrc wantHash threads n
    | none => calcFileSumOk (f.data.take n) wantCrc wantHash threads n

/-- Modelled from the spec (§2, §3): the trace of buffers the
`CrcAccumulator` observes during a successful run over `bytes` — the
reader's chunks in stream order (in multithreaded mode the regions'
chunks, serialized in region order per §4.2 strategy (a)). -/
def crcObserved (threads : Nat) (bytes : List Nat) : List (List Nat) :=
  if threads ≤ 1 then chunksOf bufSize bytes
  else ((regionSplit threads bytes).map (chunksOf bufSize)).flatten

/-- Modelled from the spec (§2, §3): the trace of buffers the
`HashAccumulator` observes during a successful run over `bytes`,
reassembled across leaves in leaf order in the parallel case. -/
def hashObserved (threads : Nat) (bytes : List Nat) : List (List Nat) :=
  if threads ≤ 1 then chunksOf bufSize bytes
  else ((regionSplit threads bytes).map (chunksOf bufSize)).flatten

/-- Modelled from the spec (§4.4, §6): the progress notifications of a
successful run — with any of `CALCFSUM_SHOWTEXT`, `CALCFSUM_SHOWALL`,
`CALCFSUM_CURPOS` set, the reporter sees the cumulative byte count after
every buffer; with `Flags = 0` no display variant is active and no
notification is emitted. -/
def progressTrace (flags : Nat) (bytes : List Nat) : List Nat :=
  if flags % 8 = 0 then []
  else ((chunksOf bufSize bytes).map List.length).scanl (· + ·) 0 |>.drop 1

/-- Modelled from the spec (§3 `CrcState`, §4.2): the `CrcAccumulator` — the
running CRC value plus the snapshot taken at the first `finalize`, so that
later calls return the same value without further mutation. -/
structure CrcAcc where
  crc : Nat
  result : Option Nat
deriving DecidableEq, Repr

/-- Modelled from the spec (§4.2): `CrcAccumulator.update(buffer, length)`. -/
def CrcAcc.update (a : CrcAcc) (buf : List Nat) : CrcAcc :=
  { a with crc := crcUpdate a.crc buf }

/-- Modelled from the spec (§4.2): `CrcAccumulator.finalize()` — on the first
call, snapshot and return the accumulated value (with the final xor); on
any later call, return the snapshot unchanged. -/
def CrcAcc.finalize (a : CrcAcc) : Nat × CrcAcc :=
  match a.result with
  | some r => (r, a)
  | none =>
      (a.crc ^^^ 0xFFFFFFFF, { a with result := some (a.crc ^^^ 0xFFFFFFFF) })

/-- Modelled from the spec (§3 `HashState`, §4.3): the `HashAccumulator` in
sequential mode — the running hash context plus the snapshot taken at the
first `finalize`. -/
structure HashAcc where
  ctx : Nat
  result : Option Nat
deriving DecidableEq, Repr

/-- Modelled from the spec (§4.3): `HashAccumulator.update(buffer, length)`. -/
def HashAcc.update (a : HashAcc) (buf : List Nat) : HashAcc :=
  { a with ctx := hashUpdate a.ctx buf }

/-- Modelled from the spec (§4.3): `HashAccumulator.finalize()`, idempotent
as in §4.2. -/
def HashAcc.finalize (a : HashAcc) : Nat × HashAcc :=
  match a.result with
  | some r => (r, a)
  | none => (a.ctx, { a with result := some a.ctx })

theorem flatten_map_chunksOf (B : Nat) (ls : List (List Nat)) :
    ((ls.map (chunksOf B)).flatten).flatten = ls.flatten := by
  induction ls with
  | nil => rfl
  | cons a as ih => simp [List.flatten_append, chunksOf_join, ih]

theorem crcSeqRun_eq (bytes : List Nat) : crcSeqRun bytes = crc32 bytes := by
  have h := foldl_buffers_eq_foldl_flatten crcUpdateByte 0xFFFFFFFF
    (chunksOf bufSize bytes)
  rw [chunksOf_join] at h
  unfold crcSeqRun crc32 crcUpdate
  rw [h]

theorem crcParRun_eq (threads : Nat) (bytes : List Nat) (h : 1 ≤ threads) :
    crcParRun threads bytes = crc32 bytes := by
  have h1 := foldl_buffers_eq_foldl_flatten crcUpdateByte 0xFFFFFFFF
    ((regionSplit threads bytes).map (chunksOf bufSize)).flatten
  rw [flatten_map_chunksOf, regionSplit_join threads bytes h] at h1
  unfold crcParRun crc32 crcUpdate
  rw [h1]

theorem hashLeafRun_eq (bytes : List Nat) : hashLeafRun bytes = hashSeq bytes := by
  have h := foldl_buffers_eq_foldl_flatten hashUpdateByte hashInit
    (chunksOf bufSize bytes)
  rw [chunksOf_join] at h
  unfold hashLeafRun hashSeq hashUpdate
  rw [h]

theorem crcRunSelect_eq (threads : Nat) (bytes : List Nat) (h : 1 ≤ threads) :
    (if threads ≤ 1 then crcSeqRun bytes else crcParRun threads bytes) =
      crc32 bytes := by
  split
  · exact crcSeqRun_eq bytes
  · exact crcParRun_eq threads bytes h

/-- C1: for every input stream and every thread count `Threads ≥ 1`, the
CRC32 produced by `CalcFileSum` is bit-identical to the CRC32 of the
single-threaded (`Threads = 1`) sequential single-pass computation over
the same bytes (spec §4.2, §5, §8). -/
theorem crc32_independent_of_thread_count (f : InFile) (wh wh2 : Bool)
    (threads : Nat) (size : Option Nat) (flags flags2 : Nat)
    (ht : 1 ≤ threads) :
    (calcFileSum f true wh threads size flags).crc32 =
      (calcFileSum f true wh2 1 size flags2).crc32 := by
  cases hop : f.openOk with
  | false => simp [calcFileSum, hop]
  | true =>
      cases herr : f.errAt with
      | none =>
          simp [calcFileSum, hop, herr, calcFileSumOk,
            crcSeqRun_eq, crcParRun_eq _ _ ht]
      | some e =>
          by_cases hlt : e < toProcess f size
          · simp [calcFileSum, hop, herr, hlt]
          · simp [calcFileSum, hop, herr, hlt, calcFileSumOk,
              crcSeqRun_eq, crcParRun_eq _ _ ht]

/-- Witness for C1 at a concrete stream and `Threads = 4`. -/
theorem crc32_independent_of_thread_count_witness :
    1 ≤ 4 ∧
      (calcFileSum ⟨[10, 20, 30], true, none⟩ true true 4 none 0).crc32 =
        (calcFileSum ⟨[10, 20, 30], true, none⟩ true false 1 none 0).crc32 :=
  ⟨by decide,
    crc32_independent_of_thread_count ⟨[10, 20, 30], true, none⟩ true false 4
      none 0 0 (by decide)⟩

/-- C2: every failing run of `CalcFileSum` (open failure or mid-stream
`IoError`) returns no CRC32 and no digest: the output fields stay
unpopulated and the outcome is `Failed` (spec §4.5, §7). -/
theorem failure_returns_no_checksums (f : InFile) (wc wh : Bool)
    (threads : Nat) (size : Option Nat) (flags : Nat)
    (h : f.openOk = false ∨ ∃ e, f.errAt = some e ∧ e < toProcess f size) :
    (calcFileSum f wc wh threads size flags).crc32 = none ∧
      (calcFileSum f wc wh threads size flags).digest = none ∧
      (calcFileSum f wc wh threads size flags).outcome = Outcome.Failed := by
  rcases h with h | ⟨e, he, hlt⟩
  · simp [calcFileSum, h]
  · cases hop : f.openOk with
    | false => simp [calcFileSum, hop]
    | true => simp [calcFileSum, hop, he, hlt]

/-- Witness for C2 at a stream whose read fails after one byte. -/
theorem failure_returns_no_checksums_witness :
    (calcFileSum ⟨[1, 2, 3], true, some 1⟩ true true 1 none 0).crc32 = none ∧
      (calcFileSum ⟨[1, 2, 3], true, some 1⟩ true true 1 none 0).digest = none ∧
      (calcFileSum ⟨[1, 2, 3], true, some 1⟩ true true 1 none 0).outcome =
        Outcome.Failed :=
  failure_returns_no_checksums ⟨[1, 2, 3], true, some 1⟩ true true 1 none 0
    (Or.inr ⟨1, rfl, by decide⟩)

/-- C3: a size limit smaller than the stream's length makes `CalcFileSum`
stop after exactly `Size` bytes: the run's checksums are those of the
`Size`-byte prefix and the reported bytes-processed count is `Size`, not
the file's true length (spec §6, §8). -/
theorem size_limit_truncates_processing (f : InFile) (wc wh : Bool)
    (threads flags s : Nat) (hs : s < f.data.length)
    (hok : f.openOk = true) (herr : ∀ e, f.errAt = some e → s ≤ e) :
    calcFileSum f wc wh threads (some s) flags =
        calcFileSumOk (f.data.take s) wc wh threads s ∧
      (calcFileSum f wc wh threads (some s) flags).bytesProcessed = s ∧
      (calcFileSum f wc wh threads (some s) flags).bytesProcessed ≠
        f.data.length := by
  have hn : toProcess f (some s) = s := by
    simp [toProcess]; omega
  have hmain : calcFileSum f wc wh threads (some s) flags =
      calcFileSumOk (f.data.take s) wc wh threads s := by
    cases herr2 : f.errAt with
    | none => simp [calcFileSum, hok, herr2, hn]
    | some e =>
        have hse : s ≤ e := herr e herr2
        simp [calcFileSum, hok, herr2, hn, Nat.not_lt.mpr hse]
  refine ⟨hmain, ?_, ?_⟩
  · rw [hmain]; rfl
  · rw [hmain]; simp [calcFileSumOk]; omega

/-- Witness for C3 at a four-byte stream with a two-byte budget. -/
theorem size_limit_truncates_processing_witness :
    2 < List.length [5, 6, 7, 8] ∧
      (calcFileSum ⟨[5, 6, 7, 8], true, none⟩ true true 1 (some 2) 0
        ).bytesProcessed = 2 :=
  ⟨by decide,
    (size_limit_truncates_processing ⟨[5, 6, 7, 8], true, none⟩ true true 1 0 2
      (by decide) rfl (fun e h => Option.noConfusion h)).2.1⟩

/-- C4: for one fixed input, two `Threads = 1` runs of `CalcFileSum` over the
same unchanged stream yield identical CRC32 values and identical
sequential-mode digests — the engine is a deterministic function of its
input, so equal inputs give equal results (spec §8). -/
theorem single_thread_determinism (f g : InFile) (wc wh : Bool)
    (size : Option Nat) (flags : Nat) (h : f = g) :
    (calcFileSum f wc wh 1 size flags).crc32 =
        (calcFileSum g wc wh 1 size flags).crc32 ∧
      (calcFileSum f wc wh 1 size flags).digest =
        (calcFileSum g wc wh 1 size flags).digest := by
  subst h; exact ⟨rfl, rfl⟩

/-- Witness for C4: two runs over the same concrete stream. -/
theorem single_thread_determinism_witness :
    (calcFileSum ⟨[9, 8, 7], true, none⟩ true true 1 none 0).crc32 =
        (calcFileSum ⟨[9, 8, 7], true, none⟩ true true 1 none 0).crc32 ∧
      (calcFileSum ⟨[9, 8, 7], true, none⟩ true true 1 none 0).digest =
        (calcFileSum ⟨[9, 8, 7], true, none⟩ true true 1 none 0).digest :=
  single_thread_determinism ⟨[9, 8, 7], true, none⟩ ⟨[9, 8, 7], true, none⟩
    true true none 0 rfl

/-- C5: for a fixed thread count `N > 1`, repeated runs of `CalcFileSum`
produce the same parallel-mode (`N`-leaf tree) digest — on success it is
the fixed deterministic function `hashTreeRun N` of the processed bytes —
and that digest is not required to equal the sequential digest: the two
profiles genuinely differ (concretely at the stream `[0, 1]` with two
leaves), deterministically rather than randomly (spec §4.3, §8). -/
theorem parallel_digest_deterministic (f : InFile) (wc : Bool)
    (size : Option Nat) (flags : Nat) (N : Nat) (hN : 1 < N) :
    calcFileSum f wc true N size flags = calcFileSum f wc true N size flags ∧
      ((calcFileSum f wc true N size flags).outcome = Outcome.Success →
        (calcFileSum f wc true N size flags).digest =
          some (hashTreeRun N (f.data.take (toProcess f size)))) ∧
      hashTreeRun 2 [0, 1] ≠ hashLeafRun [0, 1] := by
  have hN' : ¬ N ≤ 1 := by omega
  refine ⟨rfl, ?_, by decide⟩
  intro hsucc
  cases hop : f.openOk with
  | false => simp [calcFileSum, hop] at hsucc
  | true =>
      cases herr : f.errAt with
      | none => simp [calcFileSum, hop, herr, calcFileSumOk, hN']
      | some e =>
          by_cases hlt : e < toProcess f size
          · simp [calcFileSum, hop, herr, hlt] at hsucc
          · simp [calcFileSum, hop, herr, hlt, calcFileSumOk, hN']

/-- Witness for C5 at a concrete stream and `N = 2`. -/
theorem parallel_digest_deterministic_witness :
    calcFileSum ⟨[0, 1], true, none⟩ true true 2 none 0 =
        calcFileSum ⟨[0, 1], true, none⟩ true true 2 none 0 ∧
      ((calcFileSum ⟨[0, 1], true, none⟩ true true 2 none 0).outcome =
          Outcome.Success →
        (calcFileSum ⟨[0, 1], true, none⟩ true true 2 none 0).digest =
          some (hashTreeRun 2 (List.take
            (toProcess ⟨[0, 1], true, none⟩ none) [0, 1]))) ∧
      hashTreeRun 2 [0, 1] ≠ hashLeafRun [0, 1] :=
  parallel_digest_deterministic ⟨[0, 1], true, none⟩ true none 0 2 (by decide)

/-- C6: a zero-length input stream is not an error: `CalcFileSum` succeeds,
reports zero bytes processed, and returns the CRC32 of the empty byte
sequence and the (profile-appropriate) digest of the empty byte sequence
(spec §8). -/
theorem empty_input_well_defined (f : InFile) (wc wh : Bool)
    (threads : Nat) (size : Option Nat) (flags : Nat)
    (hdata : f.data = []) (hok : f.openOk = true) (herr : f.errAt = none)
    (ht : 1 ≤ threads) :
    (calcFileSum f wc wh threads size flags).outcome = Outcome.Success ∧
      (calcFileSum f wc wh threads size flags).bytesProcessed = 0 ∧
      (calcFileSum f wc wh threads size flags).crc32 =
        (if wc then some (crc32 []) else none) ∧
      (calcFileSum f wc wh threads size flags).digest =
        (if wh then
          some (if threads ≤ 1 then hashSeq [] else hashTreeRun threads [])
        else none) := by
  have hn : toProcess f size = 0 := by
    rcases size with _ | s <;> simp [toProcess, hdata]
  simp [calcFileSum, hok, herr, hn, calcFileSumOk, hdata, crcSeqRun_eq,
    crcParRun_eq _ _ ht, hashLeafRun_eq]

/-- Witness for C6 at the empty stream with two threads. -/
theorem empty_input_well_defined_witness :
    (calcFileSum ⟨[], true, none⟩ true true 2 none 0).outcome =
        Outcome.Success ∧
      (calcFileSum ⟨[], true, none⟩ true true 2 none 0).bytesProcessed = 0 ∧
      (calcFileSum ⟨[], true, none⟩ true true 2 none 0).crc32 =
        (if true then some (crc32 []) else none) ∧
      (calcFileSum ⟨[], true, none⟩ true true 2 none 0).digest =
        (if true then
          some (if 2 ≤ 1 then hashSeq [] else hashTreeRun 2 [])
        else none) :=
  empty_input_well_defined ⟨[], true, none⟩ true true 2 none 0 rfl rfl rfl
    (by decide)

/-- C7: after the stream has ended, a second `finalize()` on either
accumulator returns the same value as the first call and leaves the
accumulator state unchanged (spec §4.2, §4.3, §8). -/
theorem finalize_idempotent (a : CrcAcc) (b : HashAcc) :
    (a.finalize.2.finalize.1 = a.finalize.1 ∧
        a.finalize.2.finalize.2 = a.finalize.2) ∧
      (b.finalize.2.finalize.1 = b.finalize.1 ∧
        b.finalize.2.finalize.2 = b.finalize.2) := by
  rcases a with ⟨c, _ | r⟩ <;> rcases b with ⟨x, _ | s⟩ <;>
    simp [CrcAcc.finalize, HashAcc.finalize]

/-- C8: during a run no accumulator observes a buffer twice — the buffers
each accumulator observes, reassembled across leaves in leaf order,
concatenate to exactly the original stream and account for exactly its
length — and the engine's CRC is the fold over precisely that observation
trace (spec §3, §4.1). -/
theorem accumulators_observe_stream_once (threads : Nat) (bytes : List Nat)
    (ht : 1 ≤ threads) :
    (crcObserved threads bytes).flatten = bytes ∧
      (hashObserved threads bytes).flatten = bytes ∧
      ((crcObserved threads bytes).map List.length).sum = bytes.length ∧
      ((crcObserved threads bytes).foldl crcUpdate 0xFFFFFFFF) ^^^ 0xFFFFFFFF =
        (if threads ≤ 1 then crcSeqRun bytes else crcParRun threads bytes) := by
  have h1 : (crcObserved threads bytes).flatten = bytes := by
    by_cases h : threads ≤ 1
    · simp [crcObserved, h, chunksOf_join]
    · simp [crcObserved, h, flatten_map_chunksOf,
        regionSplit_join threads bytes ht]
  refine ⟨h1, ?_, ?_, ?_⟩
  · by_cases h : threads ≤ 1
    · simp [hashObserved, h, chunksOf_join]
    · simp [hashObserved, h, flatten_map_chunksOf,
        regionSplit_join threads bytes ht]
  · have h2 := List.length_flatten (crcObserved threads bytes)
    rw [h1] at h2
    exact h2.symm
  · by_cases h : threads ≤ 1 <;> simp [crcObserved, crcSeqRun, crcParRun, h]

/-- Witness for C8 at a concrete five-byte stream and two threads. -/
theorem accumulators_observe_stream_once_witness :
    (crcObserved 2 [1, 2, 3, 4, 5]).flatten = [1, 2, 3, 4, 5] ∧
      (hashObserved 2 [1, 2, 3, 4, 5]).flatten = [1, 2, 3, 4, 5] ∧
      ((crcObserved 2 [1, 2, 3, 4, 5]).map List.length).sum =
        List.length [1, 2, 3, 4, 5] ∧
      ((crcObserved 2 [1, 2, 3, 4, 5]).foldl crcUpdate 0xFFFFFFFF) ^^^
          0xFFFFFFFF =
        (if 2 ≤ 1 then crcSeqRun [1, 2, 3, 4, 5]
          else crcParRun 2 [1, 2, 3, 4, 5]) :=
  accumulators_observe_stream_once 2 [1, 2, 3, 4, 5] (by decide)

/-- C9: `wantCrc`/`wantHash` selection via pointer nullability — a null
`uint *CRC32` (resp. `byte *Blake2`) out-parameter means the CRC32 (resp.
digest) is not computed or stored, and a non-null pointer receives the
corresponding checksum of the processed bytes (filefn.hpp line 30). -/
theorem out_pointer_nullability (f : InFile) (wc wh : Bool) (threads : Nat)
    (size : Option Nat) (flags : Nat) (hok : f.openOk = true)
    (herr : f.errAt = none) :
    (calcFileSum f false wh threads size flags).crc32 = none ∧
      (calcFileSum f wc false threads size flags).digest = none ∧
      (calcFileSum f true wh threads size flags).crc32 =
        some (if threads ≤ 1 then crcSeqRun (f.data.take (toProcess f size))
          else crcParRun threads (f.data.take (toProcess f size))) ∧
      (calcFileSum f wc true threads size flags).digest =
        some (if threads ≤ 1 then hashLeafRun (f.data.take (toProcess f size))
          else hashTreeRun threads (f.data.take (toProcess f size))) := by
  refine ⟨?_, ?_, ?_, ?_⟩ <;> simp [calcFileSum, hok, herr, calcFileSumOk]

/-- Witness for C9 at a concrete stream, comparing null and non-null
out-parameters. -/
theorem out_pointer_nullability_witness :
    (calcFileSum ⟨[7, 7, 7], true, none⟩ false true 1 none 0).crc32 = none ∧
      (calcFileSum ⟨[7, 7, 7], true, none⟩ true false 1 none 0).digest = none ∧
      (calcFileSum ⟨[7, 7, 7], true, none⟩ true true 1 none 0).crc32 =
        some (if 1 ≤ 1 then
          crcSeqRun (List.take (toProcess ⟨[7, 7, 7], true, none⟩ none)
            [7, 7, 7])
        else
          crcParRun 1 (List.take (toProcess ⟨[7, 7, 7], true, none⟩ none)
            [7, 7, 7])) ∧
      (calcFileSum ⟨[7, 7, 7], true, none⟩ true true 1 none 0).digest =
        some (if 1 ≤ 1 then
          hashLeafRun (List.take (toProcess ⟨[7, 7, 7], true, none⟩ none)
            [7, 7, 7])
        else
          hashTreeRun 1 (List.take (toProcess ⟨[7, 7, 7], true, none⟩ none)
            [7, 7, 7])) :=
  out_pointer_nullability ⟨[7, 7, 7], true, none⟩ true true 1 none 0 rfl rfl

/-- C10: with the declared defaults `Size = INT64NDF` (no byte budget) and
`Flags = 0` (no progress display), `CalcFileSum` processes the entire
remaining file and emits no progress notification (filefn.hpp lines
28–30; spec §4.4, §6). -/
theorem default_args_process_whole_file (f : InFile) (wc wh : Bool)
    (threads : Nat) (hok : f.openOk = true) (herr : f.errAt = none) :
    toProcess f none = f.data.length ∧
      (calcFileSum f wc wh threads none 0).bytesProcessed = f.data.length ∧
      calcFileSum f wc wh threads none 0 =
        calcFileSumOk f.data wc wh threads f.data.length ∧
      progressTrace 0 f.data = [] := by
  refine ⟨rfl, ?_, ?_, by simp [progressTrace]⟩ <;>
    simp [calcFileSum, hok, herr, toProcess, calcFileSumOk, List.take_length]

/-- Witness for C10 at a concrete stream. -/
theorem default_args_process_whole_file_witness :
    toProcess ⟨[4, 5, 6], true, none⟩ none =
        List.length [4, 5, 6] ∧
      (calcFileSum ⟨[4, 5, 6], true, none⟩ true true 1 none 0
        ).bytesProcessed = List.length [4, 5, 6] ∧
      calcFileSum ⟨[4, 5, 6], true, none⟩ true true 1 none 0 =
        calcFileSumOk [4, 5, 6] true true 1 (List.length [4, 5, 6]) ∧
      progressTrace 0 [4, 5, 6] = [] :=
  default_args_process_whole_file ⟨[4, 5, 6], true, none⟩ true true 1 rfl rfl
